import Mathlib

/-!
Verification of the off-axis projection core (`Projection.h`, `math-helpers.h`)
of the anari-offaxis sample.

The C++ code computes over IEEE `float`; we embed it over the exact reals `ℝ`,
with `Real.sqrt` for `sqrtf` (inside `length`/`normalize`) and `Real.arctan`
for `atanf`.  The `anari::math` (linalg.h) conventions are kept: a matrix is a
tuple of COLUMN vectors, `mul(M, v)` is the usual column-major matrix-vector
product, and `mat3(a,b,c)` / `mat4(a,b,c,d)` build a matrix whose columns are
the given vectors.  Functions that write results through reference output
parameters are embedded as functions that also take the caller's pre-existing
values of those parameters and return the (possibly unchanged) new values, so
that "output left unmodified on failure" is expressible.
-/

noncomputable section

open scoped Classical

/-- Mirror of `anari::math::float3`: a 3-vector of scalars. -/
@[ext] structure Vec3 where
  x : ℝ
  y : ℝ
  z : ℝ

/-- Mirror of `anari::math::float4`: a 4-vector of scalars. -/
@[ext] structure Vec4 where
  x : ℝ
  y : ℝ
  z : ℝ
  w : ℝ

/-- Mirror of `anari::math::mat3`: three COLUMN vectors (linalg is column-major). -/
@[ext] structure Mat3 where
  c0 : Vec3
  c1 : Vec3
  c2 : Vec3

/-- Mirror of `anari::math::mat4`: four COLUMN vectors (linalg is column-major). -/
@[ext] structure Mat4 where
  c0 : Vec4
  c1 : Vec4
  c2 : Vec4
  c3 : Vec4

namespace Vec3

/-- Componentwise addition (`operator+` of linalg). -/
def vadd (a b : Vec3) : Vec3 := ⟨a.x + b.x, a.y + b.y, a.z + b.z⟩

/-- Componentwise subtraction (`operator-` of linalg). -/
def vsub (a b : Vec3) : Vec3 := ⟨a.x - b.x, a.y - b.y, a.z - b.z⟩

/-- Componentwise negation (`operator-` unary). -/
def vneg (a : Vec3) : Vec3 := ⟨-a.x, -a.y, -a.z⟩

/-- Scalar multiple (`v * s` / `s * v` of linalg). -/
def smul (s : ℝ) (a : Vec3) : Vec3 := ⟨s * a.x, s * a.y, s * a.z⟩

/-- Division of a vector by a scalar (`v / s` of linalg), componentwise. -/
def divs (a : Vec3) (s : ℝ) : Vec3 := ⟨a.x / s, a.y / s, a.z / s⟩

/-- `anari::math::dot` on 3-vectors. -/
def dot (a b : Vec3) : ℝ := a.x * b.x + a.y * b.y + a.z * b.z

/-- `anari::math::cross`. -/
def cross (a b : Vec3) : Vec3 :=
  ⟨a.y * b.z - a.z * b.y, a.z * b.x - a.x * b.z, a.x * b.y - a.y * b.x⟩

/-- `anari::math::length2`: squared Euclidean length, `dot(a,a)`. -/
def length2 (a : Vec3) : ℝ := dot a a

/-- `anari::math::length`: Euclidean length, `sqrt(length2(a))`. -/
def length (a : Vec3) : ℝ := Real.sqrt (length2 a)

/-- `anari::math::normalize`: `a / length(a)` (componentwise).  Faithful for
every nonzero vector; at the zero vector the exact-real convention `0/0 = 0`
yields `(0,0,0)` where IEEE `float` yields `(NaN,NaN,NaN)` — that float path
is modelled separately in `FloatModel` below and decides claim C5. -/
def normalize (a : Vec3) : Vec3 := divs a (length a)

end Vec3

open Vec3

namespace Mat3

/-- `anari::math::determinant` on `mat3` (the linalg cofactor formula over the
columns `c0,c1,c2`). -/
def determinant (a : Mat3) : ℝ :=
  a.c0.x * (a.c1.y * a.c2.z - a.c2.y * a.c1.z)
    + a.c0.y * (a.c1.z * a.c2.x - a.c2.z * a.c1.x)
    + a.c0.z * (a.c1.x * a.c2.y - a.c2.x * a.c1.y)

end Mat3

namespace Mat4

/-- `anari::math::mul(mat4, float4)`: column-major matrix-vector product,
`M.c0*v.x + M.c1*v.y + M.c2*v.z + M.c3*v.w`. -/
def mulVec (m : Mat4) (v : Vec4) : Vec4 :=
  ⟨m.c0.x * v.x + m.c1.x * v.y + m.c2.x * v.z + m.c3.x * v.w,
   m.c0.y * v.x + m.c1.y * v.y + m.c2.y * v.z + m.c3.y * v.w,
   m.c0.z * v.x + m.c1.z * v.y + m.c2.z * v.z + m.c3.z * v.w,
   m.c0.w * v.x + m.c1.w * v.y + m.c2.w * v.z + m.c3.w * v.w⟩

/-- `anari::math::mul(mat4, mat4)`: each column of the right factor is
transformed by the left factor. -/
def mulMat (m n : Mat4) : Mat4 :=
  ⟨m.mulVec n.c0, m.mulVec n.c1, m.mulVec n.c2, m.mulVec n.c3⟩

/-- The 4x4 identity matrix. -/
def idMat : Mat4 :=
  ⟨⟨1, 0, 0, 0⟩, ⟨0, 1, 0, 0⟩, ⟨0, 0, 1, 0⟩, ⟨0, 0, 0, 1⟩⟩

/-- Row 0 of a column-major `Mat4` (entries `M[i][0]` of linalg). -/
def row0 (m : Mat4) : Vec4 := ⟨m.c0.x, m.c1.x, m.c2.x, m.c3.x⟩

/-- Row 1 of a column-major `Mat4`. -/
def row1 (m : Mat4) : Vec4 := ⟨m.c0.y, m.c1.y, m.c2.y, m.c3.y⟩

/-- Row 2 of a column-major `Mat4`. -/
def row2 (m : Mat4) : Vec4 := ⟨m.c0.z, m.c1.z, m.c2.z, m.c3.z⟩

/-- Row 3 of a column-major `Mat4`. -/
def row3 (m : Mat4) : Vec4 := ⟨m.c0.w, m.c1.w, m.c2.w, m.c3.w⟩

end Mat4

/-- `frustum` from `math-helpers.h`: the OpenGL-style asymmetric-frustum
projection matrix.  `M[i][j]` there is row `j` of column `i`; the four columns
below are exactly the four `M[i]` of the source. -/
def frustum (left right bottom top znear zfar : ℝ) : Mat4 :=
  ⟨⟨2 * znear / (right - left), 0, 0, 0⟩,
   ⟨0, 2 * znear / (top - bottom), 0, 0⟩,
   ⟨(right + left) / (right - left), (top + bottom) / (top - bottom),
     -(zfar + znear) / (zfar - znear), -1⟩,
   ⟨0, 0, -(2 * zfar * znear) / (zfar - znear), 0⟩⟩

/-- `unprojectNDC` from `Projection.h`: apply the inverse projection to the
homogeneous NDC point, then the inverse view, then divide by `w`.  (The
source's first line recomputes `mul(projInv, float4(ndc,1))` and discards the
result; being pure it has no effect and is not repeated here.) -/
def unprojectNDC (projInv viewInv : Mat4) (ndc : Vec3) : Vec3 :=
  let v := viewInv.mulVec (projInv.mulVec ⟨ndc.x, ndc.y, ndc.z, 1⟩)
  divs ⟨v.x, v.y, v.z⟩ v.w

/-- `intersectPlanePlane` from `Projection.h`.  The C++ signature writes
through `float3 &nl, &pl`; here `nl` and `pl` are the caller's pre-existing
values and the result is `(success, nl', pl')`.  On failure (`det == 0`) the
outputs are returned unchanged. -/
def intersectPlanePlane (na pa nb pb nl pl : Vec3) : Bool × Vec3 × Vec3 :=
  let nc := cross na nb
  let det := length2 nc
  if det = 0 then (false, nl, pl)
  else
    let da := -(dot na pa)
    let db := -(dot nb pb)
    (true, nc, divs (vadd (smul da (cross nc nb)) (smul db (cross na nc))) det)

/-- `solve` from `Projection.h`: Cramer's rule on a 3x3 system.  `x` is the
caller's pre-existing value of the output parameter; on failure (`D == 0`) it
is returned unchanged. -/
def solve (A : Mat3) (b : Vec3) (x : Vec3) : Bool × Vec3 :=
  let D := Mat3.determinant A
  let D1 := Mat3.determinant ⟨b, A.c1, A.c2⟩
  let D2 := Mat3.determinant ⟨A.c0, b, A.c2⟩
  let D3 := Mat3.determinant ⟨A.c0, A.c1, b⟩
  if D = 0 then (false, x)
  else (true, ⟨D1 / D, D2 / D, D3 / D⟩)

/-- `closestLineSegmentBetweenTwoLines` from `Projection.h`.  `pc1`, `pc2` are
the caller's pre-existing output values; when the internal `solve` fails the
function returns them unchanged (the C++ returns early without writing).  The
local `float3 x` of the source is uninitialized but is only read after a
successful solve, so its initial value is irrelevant and `⟨0,0,0⟩` is used. -/
def closestLineSegmentBetweenTwoLines (na pa nb pb pc1 pc2 : Vec3) : Vec3 × Vec3 :=
  let nc := normalize (cross na nb)
  let b := vsub pb pa
  let A : Mat3 := ⟨na, vneg nb, nc⟩
  let r := solve A b ⟨0, 0, 0⟩
  if r.1 then (vadd pa (smul r.2.x na), vadd pb (smul r.2.y nb))
  else (pc1, pc2)

/-- The orthonormal basis vector `X = (LR - LL) / length(LR - LL)` computed
identically in `offaxisStereoTransform` and `offaxisStereoCamera`. -/
def quadX (LL LR : Vec3) : Vec3 := divs (vsub LR LL) (length (vsub LR LL))

/-- The basis vector `Y = (UR - LR) / length(UR - LR)` of the source. -/
def quadY (LR UR : Vec3) : Vec3 := divs (vsub UR LR) (length (vsub UR LR))

/-- The basis vector `Z = cross(X, Y)` of the source. -/
def quadZ (LL LR UR : Vec3) : Vec3 := cross (quadX LL LR) (quadY LR UR)

/-- `left = dot(eyeP, X)` with `eyeP = eye - LL`, as in both forward
transforms of `Projection.h`. -/
def camLeft (LL LR eye : Vec3) : ℝ := dot (vsub eye LL) (quadX LL LR)

/-- `right = length(LR - LL) - left`. -/
def camRight (LL LR eye : Vec3) : ℝ := length (vsub LR LL) - camLeft LL LR eye

/-- `bottom = dot(eyeP, Y)`. -/
def camBottom (LL LR UR eye : Vec3) : ℝ := dot (vsub eye LL) (quadY LR UR)

/-- `top = length(UR - LR) - bottom`. -/
def camTop (LL LR UR eye : Vec3) : ℝ := length (vsub UR LR) - camBottom LL LR UR eye

/-- `dist = dot(eyeP, Z)`: the eye's perpendicular distance to the quad. -/
def camDist (LL LR UR eye : Vec3) : ℝ := dot (vsub eye LL) (quadZ LL LR UR)

/-- `offaxisStereoTransform` from `Projection.h`: quad + eye to the projection
and view matrices.  (The source's local `mat3 R = inverse(mat3(X,Y,Z))` is
computed but never used, and is omitted.)  The reassignments
`left = -left*znear/dist` etc. of the source appear here as the scaled
arguments passed to `frustum`.  `viewOUT = mat4(float4(X,0), float4(Y,0),
float4(Z,0), float4(-eye,1))` builds the matrix whose COLUMNS are those four
vectors. -/
def offaxisStereoTransform (LL LR UR eye : Vec3) : Mat4 × Mat4 :=
  let X := quadX LL LR
  let Y := quadY LR UR
  let Z := quadZ LL LR UR
  let dist := camDist LL LR UR eye
  let left := camLeft LL LR eye
  let right := camRight LL LR eye
  let bottom := camBottom LL LR UR eye
  let top := camTop LL LR UR eye
  let znear : ℝ := 1e-3
  let zfar : ℝ := 1000
  (frustum (-left * znear / dist) (right * znear / dist)
     (-bottom * znear / dist) (top * znear / dist) znear zfar,
   ⟨⟨X.x, X.y, X.z, 0⟩, ⟨Y.x, Y.y, Y.z, 0⟩, ⟨Z.x, Z.y, Z.z, 0⟩,
    ⟨-eye.x, -eye.y, -eye.z, 1⟩⟩)

/-- The outputs written by `offaxisStereoCamera` through its five reference
parameters. -/
@[ext] structure Camera where
  dir : Vec3
  up : Vec3
  fovy : ℝ
  aspect : ℝ
  imageRegion : Vec4

/-- `offaxisStereoCamera` from `Projection.h`: quad + eye to a symmetric
perspective camera plus normalized image-region crop. -/
def offaxisStereoCamera (LL LR UR eye : Vec3) : Camera :=
  let Y := quadY LR UR
  let Z := quadZ LL LR UR
  let dist := camDist LL LR UR eye
  let left := camLeft LL LR eye
  let right := camRight LL LR eye
  let bottom := camBottom LL LR UR eye
  let top := camTop LL LR UR eye
  let newWidth := if left < right then 2 * right else 2 * left
  let newHeight := if bottom < top then 2 * top else 2 * bottom
  { dir := vneg Z
    up := Y
    fovy := 2 * Real.arctan (newHeight / (2 * dist))
    aspect := newWidth / newHeight
    imageRegion :=
      ⟨if left < right then (right - left) / newWidth else 0,
       if bottom < top then (top - bottom) / newHeight else 0,
       if right < left then (left + right) / newWidth else 1,
       if top < bottom then (bottom + top) / newHeight else 1⟩ }

/-- `offaxisStereoCameraFromTransform` from `Projection.h`.  The C++ declares
the locals `pLR, nLR, pBT, nBT, p1, p2` without initializing them and then
passes them as output parameters whose success flags it discards; their
arbitrary initial contents are the explicit arguments `nLR0 pLR0 nBT0 pBT0 p10
p20` here.  The booleans `isectLR`/`isectBT` of the source are the (unused)
first components of `rLR`/`rBT`. -/
def offaxisStereoCameraFromTransform (projInv viewInv : Mat4)
    (nLR0 pLR0 nBT0 pBT0 p10 p20 : Vec3) : Vec3 × Camera :=
  let v000 := unprojectNDC projInv viewInv ⟨-1, -1, -1⟩
  let v001 := unprojectNDC projInv viewInv ⟨-1, -1, 1⟩
  let v100 := unprojectNDC projInv viewInv ⟨1, -1, -1⟩
  let v101 := unprojectNDC projInv viewInv ⟨1, -1, 1⟩
  let v110 := unprojectNDC projInv viewInv ⟨1, 1, -1⟩
  let v111 := unprojectNDC projInv viewInv ⟨1, 1, 1⟩
  let v010 := unprojectNDC projInv viewInv ⟨-1, 1, -1⟩
  let v011 := unprojectNDC projInv viewInv ⟨-1, 1, 1⟩
  let ez00 := normalize (vsub v001 v000)
  let ez10 := normalize (vsub v101 v100)
  let _ez11 := normalize (vsub v111 v110)
  let ez01 := normalize (vsub v011 v010)
  let ey00 := normalize (vsub v010 v000)
  let ey10 := normalize (vsub v110 v100)
  let _ey11 := normalize (vsub v111 v101)
  let _ey01 := normalize (vsub v011 v001)
  let ex00 := normalize (vsub v100 v000)
  let ex10 := normalize (vsub v110 v010)
  let _ex11 := normalize (vsub v111 v011)
  let _ex01 := normalize (vsub v101 v001)
  let nL := normalize (cross ey00 ez00)
  let nR := normalize (cross ez10 ey10)
  let nB := normalize (cross ez00 ex00)
  let nT := normalize (cross ex10 ez01)
  let rLR := intersectPlanePlane nL v000 nR v100 nLR0 pLR0
  let rBT := intersectPlanePlane nB v000 nT v010 nBT0 pBT0
  let rC := closestLineSegmentBetweenTwoLines rLR.2.1 rLR.2.2 rBT.2.1 rBT.2.2 p10 p20
  let eyeOUT := divs (vadd rC.1 rC.2) 2
  let LL := unprojectNDC projInv viewInv ⟨-1, -1, 1⟩
  let LR := unprojectNDC projInv viewInv ⟨1, -1, 1⟩
  let UR := unprojectNDC projInv viewInv ⟨1, 1, 1⟩
  (eyeOUT, offaxisStereoCamera LL LR UR eyeOUT)

/-- Area of the imageRegion sub-rectangle `(x1-x0)*(y1-y0)`, with the region
stored as `(x0, y0, x1, y1)` as in the source. -/
def regionArea (c : Camera) : ℝ :=
  (c.imageRegion.z - c.imageRegion.x) * (c.imageRegion.w - c.imageRegion.y)

/-- The inverse of the projection matrix that `offaxisStereoTransform` yields
for the demo input of `main.cpp` (quad `LL=(0,0,0), LR=(3,0,0), UR=(3,3,0)`,
`eye=(1.5,1.68,1.5)`), stated explicitly; `c1_round_trip` proves it is a
two-sided inverse.  `main.cpp` obtains it as `inverse(proj)`. -/
def c1ProjInv : Mat4 :=
  ⟨⟨1, 0, 0, 0⟩, ⟨0, 1, 0, 0⟩, ⟨0, 0, 0, -999999/2000⟩,
   ⟨0, -3/25, -1, 1000001/2000⟩⟩

/-- The inverse of the view matrix that `offaxisStereoTransform` yields for
the demo input of `main.cpp`, stated explicitly; `c1_round_trip` proves it is
a two-sided inverse.  `main.cpp` obtains it as `inverse(view)`. -/
def c1ViewInv : Mat4 :=
  ⟨⟨1, 0, 0, 0⟩, ⟨0, 1, 0, 0⟩, ⟨0, 0, 1, 0⟩, ⟨3/2, 42/25, 3/2, 1⟩⟩

/-!
The exact-real embedding above is faithful to the source except at one
point: IEEE `float` division `0.0f/0.0f` produces NaN where the real-number
convention gives `0`.  The `FloatModel` namespace re-embeds the two functions
whose behavior on exactly-parallel line directions is decided by that
difference — `solve` and `closestLineSegmentBetweenTwoLines` — over values
that are either an exactly-represented real or NaN.  Rounding is not
modelled; on the concrete input used for claim C5 every intermediate value is
exactly representable, so NaN creation (`0/0`), NaN propagation, and the
C++ `== 0.f` comparison being false on NaN are the only float-specific
behaviors exercised, and the model coincides with IEEE evaluation there.
-/

namespace FloatModel

/-- A float value on the NaN-relevant paths: `some x` is the real number `x`
exactly represented, `none` marks a non-real result (NaN). -/
abbrev FloatVal := Option ℝ

/-- Float addition: NaN-propagating, exact on representable operands. -/
def fadd : FloatVal → FloatVal → FloatVal
  | some a, some b => some (a + b)
  | _, _ => none

/-- Float subtraction: NaN-propagating, exact on representable operands. -/
def fsub : FloatVal → FloatVal → FloatVal
  | some a, some b => some (a - b)
  | _, _ => none

/-- Float negation. -/
def fneg : FloatVal → FloatVal
  | some a => some (-a)
  | none => none

/-- Float multiplication: NaN-propagating (`0 * NaN` is NaN in IEEE). -/
def fmul : FloatVal → FloatVal → FloatVal
  | some a, some b => some (a * b)
  | _, _ => none

/-- Float division: a zero divisor yields a non-real result.  (At the input
below the only zero-divisor division is `0/0`, whose IEEE result is NaN; no
`x/0` with `x ≠ 0` — IEEE infinity — arises.) -/
def fdiv : FloatVal → FloatVal → FloatVal
  | some a, some b => if b = 0 then none else some (a / b)
  | _, _ => none

/-- `sqrtf`: NaN on NaN or negative arguments, exact otherwise. -/
def fsqrt : FloatVal → FloatVal
  | some a => if a < 0 then none else some (Real.sqrt a)
  | none => none

/-- The C++ comparison `x == 0.f`: false when `x` is NaN. -/
def feqZero : FloatVal → Bool
  | some a => if a = 0 then true else false
  | none => false

/-- `float3` under the float-value semantics. -/
structure FVec3 where
  x : FloatVal
  y : FloatVal
  z : FloatVal

/-- Componentwise addition. -/
def vadd (a b : FVec3) : FVec3 := ⟨fadd a.x b.x, fadd a.y b.y, fadd a.z b.z⟩

/-- Componentwise subtraction. -/
def vsub (a b : FVec3) : FVec3 := ⟨fsub a.x b.x, fsub a.y b.y, fsub a.z b.z⟩

/-- Componentwise negation. -/
def vneg (a : FVec3) : FVec3 := ⟨fneg a.x, fneg a.y, fneg a.z⟩

/-- Vector times scalar, `v * s` of linalg. -/
def smul (s : FloatVal) (a : FVec3) : FVec3 :=
  ⟨fmul s a.x, fmul s a.y, fmul s a.z⟩

/-- Vector divided by scalar, `v / s` of linalg. -/
def divs (a : FVec3) (s : FloatVal) : FVec3 :=
  ⟨fdiv a.x s, fdiv a.y s, fdiv a.z s⟩

/-- `dot` with the source's left-to-right association. -/
def dot (a b : FVec3) : FloatVal :=
  fadd (fadd (fmul a.x b.x) (fmul a.y b.y)) (fmul a.z b.z)

/-- `cross`. -/
def cross (a b : FVec3) : FVec3 :=
  ⟨fsub (fmul a.y b.z) (fmul a.z b.y),
   fsub (fmul a.z b.x) (fmul a.x b.z),
   fsub (fmul a.x b.y) (fmul a.y b.x)⟩

/-- `length2`. -/
def length2 (a : FVec3) : FloatVal := dot a a

/-- `length`. -/
def length (a : FVec3) : FloatVal := fsqrt (length2 a)

/-- `normalize`: `a / length(a)`; for the zero vector this is `0/0`, IEEE
NaN in every component. -/
def normalize (a : FVec3) : FVec3 := divs a (length a)

/-- `mat3` under the float-value semantics (three columns). -/
structure FMat3 where
  c0 : FVec3
  c1 : FVec3
  c2 : FVec3

/-- `determinant`, the linalg cofactor formula. -/
def determinant (a : FMat3) : FloatVal :=
  fadd (fadd
    (fmul a.c0.x (fsub (fmul a.c1.y a.c2.z) (fmul a.c2.y a.c1.z)))
    (fmul a.c0.y (fsub (fmul a.c1.z a.c2.x) (fmul a.c2.z a.c1.x))))
    (fmul a.c0.z (fsub (fmul a.c1.x a.c2.y) (fmul a.c2.x a.c1.y)))

/-- `solve` from `Projection.h` under float-value semantics: the failure
test is the C++ `D == 0.f`, which is FALSE when `D` is NaN. -/
def solve (A : FMat3) (b : FVec3) (x : FVec3) : Bool × FVec3 :=
  let D := determinant A
  let D1 := determinant ⟨b, A.c1, A.c2⟩
  let D2 := determinant ⟨A.c0, b, A.c2⟩
  let D3 := determinant ⟨A.c0, A.c1, b⟩
  if feqZero D then (false, x)
  else (true, ⟨fdiv D1 D, fdiv D2 D, fdiv D3 D⟩)

/-- `closestLineSegmentBetweenTwoLines` from `Projection.h` under
float-value semantics. -/
def closestLineSegmentBetweenTwoLines (na pa nb pb pc1 pc2 : FVec3) :
    FVec3 × FVec3 :=
  let nc := normalize (cross na nb)
  let b := vsub pb pa
  let A : FMat3 := ⟨na, vneg nb, nc⟩
  let r := solve A b ⟨some 0, some 0, some 0⟩
  if r.1 then (vadd pa (smul r.2.x na), vadd pb (smul r.2.y nb))
  else (pc1, pc2)

end FloatModel

end

noncomputable section

open Vec3

/-! ### General helper lemmas -/

/-- Evaluate `Real.sqrt` at a perfect square. -/
theorem sqrt_eval (a b : ℝ) (hb : 0 ≤ b) (h : b * b = a) : Real.sqrt a = b := by
  rw [← h]; exact Real.sqrt_mul_self hb

/-! ### Claim C2: `solve` implements Cramer's rule with an exact zero test -/

/-- Claim C2: for every 3x3 matrix `A` and vector `b`, `solve` fails iff the
determinant `D` of `A` is exactly zero, leaving the output `x` unmodified in
that case; otherwise it succeeds with `x = (D1/D, D2/D, D3/D)` where `Di` is
the determinant of `A` with column `i` replaced by `b`. -/
theorem solve_cramer_spec (A : Mat3) (b x0 : Vec3) :
    ((solve A b x0).1 = false ↔ Mat3.determinant A = 0) ∧
    (Mat3.determinant A = 0 → (solve A b x0).2 = x0) ∧
    (Mat3.determinant A ≠ 0 →
      (solve A b x0).2 =
        ⟨Mat3.determinant ⟨b, A.c1, A.c2⟩ / Mat3.determinant A,
         Mat3.determinant ⟨A.c0, b, A.c2⟩ / Mat3.determinant A,
         Mat3.determinant ⟨A.c0, A.c1, b⟩ / Mat3.determinant A⟩) := by
  simp only [solve]
  split_ifs with h <;> simp [h]

/-- Witness for C2 at a concrete well-conditioned system (the identity matrix
and `b = (1,2,3)`): the determinant is nonzero and the returned solution is
the Cramer vector. -/
theorem solve_cramer_spec_witness :
    Mat3.determinant ⟨⟨1, 0, 0⟩, ⟨0, 1, 0⟩, ⟨0, 0, 1⟩⟩ ≠ 0 ∧
    (solve ⟨⟨1, 0, 0⟩, ⟨0, 1, 0⟩, ⟨0, 0, 1⟩⟩ ⟨1, 2, 3⟩ ⟨9, 9, 9⟩).2 =
      ⟨Mat3.determinant ⟨⟨1, 2, 3⟩, ⟨0, 1, 0⟩, ⟨0, 0, 1⟩⟩ /
         Mat3.determinant ⟨⟨1, 0, 0⟩, ⟨0, 1, 0⟩, ⟨0, 0, 1⟩⟩,
       Mat3.determinant ⟨⟨1, 0, 0⟩, ⟨1, 2, 3⟩, ⟨0, 0, 1⟩⟩ /
         Mat3.determinant ⟨⟨1, 0, 0⟩, ⟨0, 1, 0⟩, ⟨0, 0, 1⟩⟩,
       Mat3.determinant ⟨⟨1, 0, 0⟩, ⟨0, 1, 0⟩, ⟨1, 2, 3⟩⟩ /
         Mat3.determinant ⟨⟨1, 0, 0⟩, ⟨0, 1, 0⟩, ⟨0, 0, 1⟩⟩⟩ := by
  have hd : Mat3.determinant (⟨⟨1, 0, 0⟩, ⟨0, 1, 0⟩, ⟨0, 0, 1⟩⟩ : Mat3) ≠ 0 := by
    norm_num [Mat3.determinant]
  exact ⟨hd, ((solve_cramer_spec ⟨⟨1, 0, 0⟩, ⟨0, 1, 0⟩, ⟨0, 0, 1⟩⟩
    ⟨1, 2, 3⟩ ⟨9, 9, 9⟩).2.2 hd)⟩

/-! ### Claim C3: on success, `intersectPlanePlane` returns a point on both
planes and a direction perpendicular to both normals -/

/-- Claim C3: whenever `intersectPlanePlane` succeeds, the returned point `pl`
lies on both input planes (`dot(na, pl - pa) = 0` and `dot(nb, pl - pb) = 0`)
and the returned direction `nl = cross(na, nb)` is perpendicular to both
normals (hence parallel to the planes' line of intersection). -/
theorem intersectPlanePlane_on_planes (na pa nb pb nl0 pl0 : Vec3)
    (h : (intersectPlanePlane na pa nb pb nl0 pl0).1 = true) :
    dot na (vsub (intersectPlanePlane na pa nb pb nl0 pl0).2.2 pa) = 0 ∧
    dot nb (vsub (intersectPlanePlane na pa nb pb nl0 pl0).2.2 pb) = 0 ∧
    (intersectPlanePlane na pa nb pb nl0 pl0).2.1 = cross na nb ∧
    dot na ((intersectPlanePlane na pa nb pb nl0 pl0).2.1) = 0 ∧
    dot nb ((intersectPlanePlane na pa nb pb nl0 pl0).2.1) = 0 := by
  simp only [intersectPlanePlane] at h ⊢
  split_ifs at h ⊢ with hd
  refine ⟨?_, ?_, rfl, ?_, ?_⟩
  · simp only [Vec3.dot, Vec3.vsub, Vec3.divs, Vec3.vadd, Vec3.smul,
      Vec3.cross, Vec3.length2] at hd ⊢
    field_simp
    ring
  · simp only [Vec3.dot, Vec3.vsub, Vec3.divs, Vec3.vadd, Vec3.smul,
      Vec3.cross, Vec3.length2] at hd ⊢
    field_simp
    ring
  · simp only [Vec3.dot, Vec3.cross]
    ring
  · simp only [Vec3.dot, Vec3.cross]
    ring

/-- Witness for C3 at the planes `x = 0` and `y = 0` (normals `(1,0,0)` and
`(0,1,0)`, both through the origin): the intersection succeeds and the
conclusions hold there. -/
theorem intersectPlanePlane_on_planes_witness :
    (intersectPlanePlane ⟨1, 0, 0⟩ ⟨0, 0, 0⟩ ⟨0, 1, 0⟩ ⟨0, 0, 0⟩
        ⟨4, 4, 4⟩ ⟨5, 5, 5⟩).1 = true ∧
    dot ⟨1, 0, 0⟩ (vsub (intersectPlanePlane ⟨1, 0, 0⟩ ⟨0, 0, 0⟩ ⟨0, 1, 0⟩
        ⟨0, 0, 0⟩ ⟨4, 4, 4⟩ ⟨5, 5, 5⟩).2.2 ⟨0, 0, 0⟩) = 0 := by
  have h : (intersectPlanePlane ⟨1, 0, 0⟩ ⟨0, 0, 0⟩ ⟨0, 1, 0⟩ ⟨0, 0, 0⟩
      ⟨4, 4, 4⟩ ⟨5, 5, 5⟩).1 = true := by
    simp only [intersectPlanePlane]
    norm_num [Vec3.cross, Vec3.length2, Vec3.dot]
  exact ⟨h, (intersectPlanePlane_on_planes ⟨1, 0, 0⟩ ⟨0, 0, 0⟩ ⟨0, 1, 0⟩
    ⟨0, 0, 0⟩ ⟨4, 4, 4⟩ ⟨5, 5, 5⟩ h).1⟩

/-! ### Claim C4: `intersectPlanePlane` failure condition and untouched
outputs -/

/-- Claim C4: `intersectPlanePlane` fails exactly when the squared length of
`cross(na, nb)` is zero (parallel or coincident planes, in particular whenever
the two normals are equal), and on failure both output parameters keep their
caller-supplied values. -/
theorem intersectPlanePlane_failure_iff (na pa nb pb nl0 pl0 : Vec3) :
    ((intersectPlanePlane na pa nb pb nl0 pl0).1 = false ↔
      length2 (cross na nb) = 0) ∧
    (length2 (cross na nb) = 0 →
      (intersectPlanePlane na pa nb pb nl0 pl0).2.1 = nl0 ∧
      (intersectPlanePlane na pa nb pb nl0 pl0).2.2 = pl0) ∧
    (intersectPlanePlane na pa na pb nl0 pl0).1 = false := by
  refine ⟨?_, ?_, ?_⟩
  · simp only [intersectPlanePlane]
    split_ifs with h <;> simp [h]
  · intro h
    simp only [intersectPlanePlane]
    rw [if_pos h]
    exact ⟨rfl, rfl⟩
  · simp only [intersectPlanePlane]
    have h : length2 (cross na na) = 0 := by
      simp only [Vec3.cross, Vec3.length2, Vec3.dot]
      ring
    rw [if_pos h]

/-- Witness for C4 at the concrete parallel input `na = nb = (0,0,2)`: the
cross product is degenerate and the outputs keep the caller's value. -/
theorem intersectPlanePlane_failure_iff_witness :
    length2 (cross ⟨0, 0, 2⟩ ⟨0, 0, 2⟩) = 0 ∧
    (intersectPlanePlane ⟨0, 0, 2⟩ ⟨1, 1, 0⟩ ⟨0, 0, 2⟩ ⟨2, 2, 2⟩
        ⟨4, 4, 4⟩ ⟨5, 5, 5⟩).2.1 = ⟨4, 4, 4⟩ := by
  have h : length2 (cross (⟨0, 0, 2⟩ : Vec3) ⟨0, 0, 2⟩) = 0 := by
    norm_num [Vec3.cross, Vec3.length2, Vec3.dot]
  exact ⟨h, ((intersectPlanePlane_failure_iff ⟨0, 0, 2⟩ ⟨1, 1, 0⟩ ⟨0, 0, 2⟩
    ⟨2, 2, 2⟩ ⟨4, 4, 4⟩ ⟨5, 5, 5⟩).2.1 h).1⟩

/-! ### Claim C5: parallel lines and the closest-point outputs -/

/-- Claim C5 (code-bug evidence): at the exactly-parallel input
`na=(1,2,0), pa=(0,0,0), nb=(2,4,0), pb=(0,0,1)` with caller outputs
`pc1=(5,6,7), pc2=(8,9,10)` — every value exactly representable in `float` —
the program computes `nc = normalize(cross(na,nb)) = normalize(0) = NaN`, so
the determinant is NaN, the C++ test `D == 0.f` is FALSE, `solve` reports
success, and `pc1`, `pc2` are overwritten with NaN: the outputs are NOT
retained, contradicting the claimed (and spec-stated, intended) early-return
contract. -/
theorem c5_float_divergence :
    FloatModel.closestLineSegmentBetweenTwoLines
      ⟨some 1, some 2, some 0⟩ ⟨some 0, some 0, some 0⟩
      ⟨some 2, some 4, some 0⟩ ⟨some 0, some 0, some 1⟩
      ⟨some 5, some 6, some 7⟩ ⟨some 8, some 9, some 10⟩ =
      (⟨none, none, none⟩, ⟨none, none, none⟩) ∧
    FloatModel.closestLineSegmentBetweenTwoLines
      ⟨some 1, some 2, some 0⟩ ⟨some 0, some 0, some 0⟩
      ⟨some 2, some 4, some 0⟩ ⟨some 0, some 0, some 1⟩
      ⟨some 5, some 6, some 7⟩ ⟨some 8, some 9, some 10⟩ ≠
      ((⟨some 5, some 6, some 7⟩ : FloatModel.FVec3),
       (⟨some 8, some 9, some 10⟩ : FloatModel.FVec3)) := by
  have h : FloatModel.closestLineSegmentBetweenTwoLines
      ⟨some 1, some 2, some 0⟩ ⟨some 0, some 0, some 0⟩
      ⟨some 2, some 4, some 0⟩ ⟨some 0, some 0, some 1⟩
      ⟨some 5, some 6, some 7⟩ ⟨some 8, some 9, some 10⟩ =
      (⟨none, none, none⟩, ⟨none, none, none⟩) := by
    norm_num [FloatModel.closestLineSegmentBetweenTwoLines,
      FloatModel.normalize, FloatModel.length, FloatModel.length2,
      FloatModel.dot, FloatModel.cross, FloatModel.divs, FloatModel.vsub,
      FloatModel.vadd, FloatModel.vneg, FloatModel.smul, FloatModel.solve,
      FloatModel.determinant, FloatModel.fadd, FloatModel.fsub,
      FloatModel.fmul, FloatModel.fdiv, FloatModel.fneg, FloatModel.fsqrt,
      FloatModel.feqZero]
  refine ⟨h, ?_⟩
  rw [h]
  simp

/-! ### Claim C6: layout of the view matrix produced by
`offaxisStereoTransform` -/

/-- Evaluation of the view matrix at the counterexample input: quad
`LL=(0,0,0), LR=(0,3,0), UR=(0,3,3)` (so `X=(0,1,0)`, `Y=(0,0,1)`,
`Z=(1,0,0)`) and `eye=(1,2,1)`. -/
theorem c6_view_eval :
    (offaxisStereoTransform ⟨0, 0, 0⟩ ⟨0, 3, 0⟩ ⟨0, 3, 3⟩ ⟨1, 2, 1⟩).2 =
      ⟨⟨0, 1, 0, 0⟩, ⟨0, 0, 1, 0⟩, ⟨1, 0, 0, 0⟩, ⟨-1, -2, -1, 1⟩⟩ := by
  have h9 : Real.sqrt 9 = 3 := sqrt_eval 9 3 (by norm_num) (by norm_num)
  have hX : quadX ⟨0, 0, 0⟩ ⟨0, 3, 0⟩ = ⟨0, 1, 0⟩ := by
    simp only [quadX, Vec3.vsub, Vec3.length, Vec3.length2, Vec3.dot, Vec3.divs]
    norm_num [h9]
  have hY : quadY ⟨0, 3, 0⟩ ⟨0, 3, 3⟩ = ⟨0, 0, 1⟩ := by
    simp only [quadY, Vec3.vsub, Vec3.length, Vec3.length2, Vec3.dot, Vec3.divs]
    norm_num [h9]
  have hZ : quadZ ⟨0, 0, 0⟩ ⟨0, 3, 0⟩ ⟨0, 3, 3⟩ = ⟨1, 0, 0⟩ := by
    simp only [quadZ, hX, hY, Vec3.cross]
    norm_num
  simp only [offaxisStereoTransform, hX, hY, hZ]

/-- Counterexample to claim C6 as stated: at the quad `LL=(0,0,0),
LR=(0,3,0), UR=(0,3,3)` with `eye=(1,2,1)` (a valid configuration, the eye at
distance 1 in front of the quad), the view matrix does NOT have rows
`(X,0),(Y,0),(Z,0),(-eye,1)`, nor does it map the eye to the origin of eye
space. -/
theorem c6_view_rows_counterexample :
    ¬ (Mat4.row0 ((offaxisStereoTransform ⟨0, 0, 0⟩ ⟨0, 3, 0⟩ ⟨0, 3, 3⟩
          ⟨1, 2, 1⟩).2) =
        ⟨(quadX ⟨0, 0, 0⟩ ⟨0, 3, 0⟩).x, (quadX ⟨0, 0, 0⟩ ⟨0, 3, 0⟩).y,
         (quadX ⟨0, 0, 0⟩ ⟨0, 3, 0⟩).z, 0⟩ ∧
       Mat4.row1 ((offaxisStereoTransform ⟨0, 0, 0⟩ ⟨0, 3, 0⟩ ⟨0, 3, 3⟩
          ⟨1, 2, 1⟩).2) =
        ⟨(quadY ⟨0, 3, 0⟩ ⟨0, 3, 3⟩).x, (quadY ⟨0, 3, 0⟩ ⟨0, 3, 3⟩).y,
         (quadY ⟨0, 3, 0⟩ ⟨0, 3, 3⟩).z, 0⟩ ∧
       Mat4.mulVec ((offaxisStereoTransform ⟨0, 0, 0⟩ ⟨0, 3, 0⟩ ⟨0, 3, 3⟩
          ⟨1, 2, 1⟩).2) ⟨1, 2, 1, 1⟩ = ⟨0, 0, 0, 1⟩) := by
  have h9 : Real.sqrt 9 = 3 := sqrt_eval 9 3 (by norm_num) (by norm_num)
  have hX : quadX ⟨0, 0, 0⟩ ⟨0, 3, 0⟩ = ⟨0, 1, 0⟩ := by
    simp only [quadX, Vec3.vsub, Vec3.length, Vec3.length2, Vec3.dot, Vec3.divs]
    norm_num [h9]
  rintro ⟨h1, -, -⟩
  rw [c6_view_eval, hX] at h1
  simp only [Mat4.row0, Vec4.mk.injEq] at h1
  norm_num at h1

/-- Claim C6 (amended): the four vectors `(X,0), (Y,0), (Z,0), (-eye,1)` are
the COLUMNS of the view matrix produced by `offaxisStereoTransform`
(equivalently, its rows are `(X.x,Y.x,Z.x,-eye.x)`, `(X.y,Y.y,Z.y,-eye.y)`,
`(X.z,Y.z,Z.z,-eye.z)`, `(0,0,0,1)`), not its rows; the matrix maps the eye to
the eye-space origin in special configurations such as the axis-aligned demo
quad, but not in general. -/
theorem c6_view_columns_amended :
    (∀ LL LR UR eye : Vec3,
      Mat4.row0 ((offaxisStereoTransform LL LR UR eye).2) =
        ⟨(quadX LL LR).x, (quadY LR UR).x, (quadZ LL LR UR).x, -eye.x⟩ ∧
      Mat4.row1 ((offaxisStereoTransform LL LR UR eye).2) =
        ⟨(quadX LL LR).y, (quadY LR UR).y, (quadZ LL LR UR).y, -eye.y⟩ ∧
      Mat4.row2 ((offaxisStereoTransform LL LR UR eye).2) =
        ⟨(quadX LL LR).z, (quadY LR UR).z, (quadZ LL LR UR).z, -eye.z⟩ ∧
      Mat4.row3 ((offaxisStereoTransform LL LR UR eye).2) = ⟨0, 0, 0, 1⟩) ∧
    Mat4.mulVec ((offaxisStereoTransform ⟨0, 0, 0⟩ ⟨3, 0, 0⟩ ⟨3, 3, 0⟩
        ⟨1.5, 1.68, 1.5⟩).2) ⟨1.5, 1.68, 1.5, 1⟩ = ⟨0, 0, 0, 1⟩ := by
  constructor
  · intro LL LR UR eye
    simp [offaxisStereoTransform, Mat4.row0, Mat4.row1, Mat4.row2, Mat4.row3]
  · have h9 : Real.sqrt 9 = 3 := sqrt_eval 9 3 (by norm_num) (by norm_num)
    have hX : quadX ⟨0, 0, 0⟩ ⟨3, 0, 0⟩ = ⟨1, 0, 0⟩ := by
      simp only [quadX, Vec3.vsub, Vec3.length, Vec3.length2, Vec3.dot,
        Vec3.divs]
      norm_num [h9]
    have hY : quadY ⟨3, 0, 0⟩ ⟨3, 3, 0⟩ = ⟨0, 1, 0⟩ := by
      simp only [quadY, Vec3.vsub, Vec3.length, Vec3.length2, Vec3.dot,
        Vec3.divs]
      norm_num [h9]
    have hZ : quadZ ⟨0, 0, 0⟩ ⟨3, 0, 0⟩ ⟨3, 3, 0⟩ = ⟨0, 0, 1⟩ := by
      simp only [quadZ, hX, hY, Vec3.cross]
      norm_num
    simp only [offaxisStereoTransform, hX, hY, hZ, Mat4.mulVec]
    norm_num

/-! ### Claim C7: symmetric configurations give the full image region -/

/-- Claim C7: when the configuration is symmetric about the eye's projection
onto the quad (`left = right` and `bottom = top`), `offaxisStereoCamera`
returns the image region `(0, 0, 1, 1)` exactly. -/
theorem offaxis_symmetric_region (LL LR UR eye : Vec3)
    (h1 : camLeft LL LR eye = camRight LL LR eye)
    (h2 : camBottom LL LR UR eye = camTop LL LR UR eye) :
    (offaxisStereoCamera LL LR UR eye).imageRegion = ⟨0, 0, 1, 1⟩ := by
  simp [offaxisStereoCamera, h1, h2]

/-- Witness for C7 at the symmetric configuration `LL=(0,0,0), LR=(2,0,0),
UR=(2,2,0)`, `eye=(1,1,7)` (the eye projects onto the quad's center). -/
theorem offaxis_symmetric_region_witness :
    camLeft ⟨0, 0, 0⟩ ⟨2, 0, 0⟩ ⟨1, 1, 7⟩ =
      camRight ⟨0, 0, 0⟩ ⟨2, 0, 0⟩ ⟨1, 1, 7⟩ ∧
    camBottom ⟨0, 0, 0⟩ ⟨2, 0, 0⟩ ⟨2, 2, 0⟩ ⟨1, 1, 7⟩ =
      camTop ⟨0, 0, 0⟩ ⟨2, 0, 0⟩ ⟨2, 2, 0⟩ ⟨1, 1, 7⟩ ∧
    (offaxisStereoCamera ⟨0, 0, 0⟩ ⟨2, 0, 0⟩ ⟨2, 2, 0⟩ ⟨1, 1, 7⟩).imageRegion =
      ⟨0, 0, 1, 1⟩ := by
  have h4 : Real.sqrt 4 = 2 := sqrt_eval 4 2 (by norm_num) (by norm_num)
  have h1 : camLeft ⟨0, 0, 0⟩ ⟨2, 0, 0⟩ ⟨1, 1, 7⟩ =
      camRight ⟨0, 0, 0⟩ ⟨2, 0, 0⟩ ⟨1, 1, 7⟩ := by
    simp only [camLeft, camRight, quadX, Vec3.vsub, Vec3.length, Vec3.length2,
      Vec3.dot, Vec3.divs]
    norm_num [h4]
  have h2 : camBottom ⟨0, 0, 0⟩ ⟨2, 0, 0⟩ ⟨2, 2, 0⟩ ⟨1, 1, 7⟩ =
      camTop ⟨0, 0, 0⟩ ⟨2, 0, 0⟩ ⟨2, 2, 0⟩ ⟨1, 1, 7⟩ := by
    simp only [camBottom, camTop, camLeft, quadY, quadX, Vec3.vsub,
      Vec3.length, Vec3.length2, Vec3.dot, Vec3.divs]
    norm_num [h4]
  exact ⟨h1, h2,
    offaxis_symmetric_region ⟨0, 0, 0⟩ ⟨2, 0, 0⟩ ⟨2, 2, 0⟩ ⟨1, 1, 7⟩ h1 h2⟩

/-! ### Claim C10: `offaxisStereoCameraFromTransform` ignores all failure
flags and outputs values derived from its never-assigned locals -/

/-- Arithmetic core of the image-region extent: with offsets `l + r = W` the
source's branchy crop formulas collapse to extent `W / (2 * max l r)`. -/
theorem width_formula (l r W : ℝ) (hW : 0 < W) (hlr : l + r = W) :
    ((if r < l then (l + r) / (if l < r then 2 * r else 2 * l) else 1) -
      (if l < r then (r - l) / (if l < r then 2 * r else 2 * l) else 0)) =
    W / (2 * max l r) := by
  rcases lt_trichotomy l r with h | h | h
  · rw [if_neg (asymm h), if_pos h, if_pos h, max_eq_right h.le]
    have hr : 0 < r := by nlinarith
    field_simp
    linarith
  · subst h
    rw [if_neg (lt_irrefl l), if_neg (lt_irrefl l), max_self]
    have hl : 0 < l := by nlinarith
    field_simp
    linarith
  · rw [if_pos h, if_neg (asymm h), if_neg (asymm h), max_eq_left h.le]
    have hl : 0 < l := by nlinarith
    field_simp
    linarith

/-- Horizontal extent of the image region returned by `offaxisStereoCamera`. -/
theorem region_width (LL LR UR eye : Vec3) (hW : 0 < length (vsub LR LL)) :
    (offaxisStereoCamera LL LR UR eye).imageRegion.z -
      (offaxisStereoCamera LL LR UR eye).imageRegion.x =
    length (vsub LR LL) /
      (2 * max (camLeft LL LR eye) (camRight LL LR eye)) := by
  simp only [offaxisStereoCamera]
  exact width_formula (camLeft LL LR eye) (camRight LL LR eye)
    (length (vsub LR LL)) hW (by rw [camRight]; ring)

/-- Vertical extent of the image region returned by `offaxisStereoCamera`. -/
theorem region_height (LL LR UR eye : Vec3) (hH : 0 < length (vsub UR LR)) :
    (offaxisStereoCamera LL LR UR eye).imageRegion.w -
      (offaxisStereoCamera LL LR UR eye).imageRegion.y =
    length (vsub UR LR) /
      (2 * max (camBottom LL LR UR eye) (camTop LL LR UR eye)) := by
  simp only [offaxisStereoCamera]
  exact width_formula (camBottom LL LR UR eye) (camTop LL LR UR eye)
    (length (vsub UR LR)) hH (by rw [camTop]; ring)

/-- `max l (W - l)` measured from the centered value `W / 2`. -/
theorem max_sub_half (l W : ℝ) : max l (W - l) = W / 2 + |l - W / 2| := by
  rcases le_total l (W / 2) with h | h
  · rw [abs_of_nonpos (by linarith), max_eq_right (by linarith)]
    ring
  · rw [abs_of_nonneg (by linarith), max_eq_left (by linarith)]
    ring

/-- Bilinearity: shifting the eye by `t • v` shifts the projected offset by
`t * dot v w`. -/
theorem dot_shift (e L v w : Vec3) (t : ℝ) :
    dot (vsub (vadd e (smul t v)) L) w = dot (vsub e L) w + t * dot v w := by
  simp only [Vec3.dot, Vec3.vsub, Vec3.vadd, Vec3.smul]
  ring

/-- Orthogonal quad edges give orthogonal normalized basis vectors. -/
theorem quadXY_orth (LL LR UR : Vec3)
    (horth : dot (vsub LR LL) (vsub UR LR) = 0) :
    dot (quadX LL LR) (quadY LR UR) = 0 := by
  have key : dot (quadX LL LR) (quadY LR UR) =
      dot (vsub LR LL) (vsub UR LR) /
        (length (vsub LR LL) * length (vsub UR LR)) := by
    simp only [quadX, quadY, Vec3.dot, Vec3.divs, Vec3.vsub]
    ring
  rw [key, horth, zero_div]

/-- Claim C9: for a fixed quad with orthogonal edges, moving the eye's
in-plane projection strictly farther from the quad's center along the X axis
(or along the Y axis) — which fixes the perpendicular distance and the other
in-plane offset — strictly shrinks the area `(x1-x0)*(y1-y0)` of the image
region computed by `offaxisStereoCamera`. -/
theorem offaxis_asymmetry_shrinks_area (LL LR UR eye1 eye2 : Vec3) (t : ℝ)
    (hW : 0 < length (vsub LR LL)) (hH : 0 < length (vsub UR LR))
    (horth : dot (vsub LR LL) (vsub UR LR) = 0)
    (hcase :
      (eye2 = vadd eye1 (smul t (quadX LL LR)) ∧
        |camLeft LL LR eye1 - length (vsub LR LL) / 2| <
          |camLeft LL LR eye2 - length (vsub LR LL) / 2|) ∨
      (eye2 = vadd eye1 (smul t (quadY LR UR)) ∧
        |camBottom LL LR UR eye1 - length (vsub UR LR) / 2| <
          |camBottom LL LR UR eye2 - length (vsub UR LR) / 2|)) :
    regionArea (offaxisStereoCamera LL LR UR eye2) <
      regionArea (offaxisStereoCamera LL LR UR eye1) := by
  have hXY : dot (quadX LL LR) (quadY LR UR) = 0 := quadXY_orth LL LR UR horth
  have hYX : dot (quadY LR UR) (quadX LL LR) = 0 := by
    rw [← hXY]; simp only [Vec3.dot]; ring
  simp only [regionArea]
  rw [region_width LL LR UR eye1 hW, region_width LL LR UR eye2 hW,
    region_height LL LR UR eye1 hH, region_height LL LR UR eye2 hH]
  rcases hcase with ⟨hmove, hasym⟩ | ⟨hmove, hasym⟩
  · -- movement along X: the vertical offsets are unchanged
    have hb : camBottom LL LR UR eye2 = camBottom LL LR UR eye1 := by
      rw [hmove, camBottom, camBottom, dot_shift, hXY]; ring
    have ht : camTop LL LR UR eye2 = camTop LL LR UR eye1 := by
      rw [camTop, camTop, hb]
    rw [hb, ht]
    have hm1 : max (camLeft LL LR eye1) (camRight LL LR eye1) =
        length (vsub LR LL) / 2 +
          |camLeft LL LR eye1 - length (vsub LR LL) / 2| := by
      rw [camRight, max_sub_half]
    have hm2 : max (camLeft LL LR eye2) (camRight LL LR eye2) =
        length (vsub LR LL) / 2 +
          |camLeft LL LR eye2 - length (vsub LR LL) / 2| := by
      rw [camRight, max_sub_half]
    have hmb : length (vsub UR LR) / 2 ≤
        max (camBottom LL LR UR eye1) (camTop LL LR UR eye1) := by
      rw [camTop, max_sub_half]
      have := abs_nonneg (camBottom LL LR UR eye1 - length (vsub UR LR) / 2)
      linarith
    have hK : 0 < length (vsub UR LR) /
        (2 * max (camBottom LL LR UR eye1) (camTop LL LR UR eye1)) := by
      apply div_pos hH
      nlinarith
    have h1 : 0 < max (camLeft LL LR eye1) (camRight LL LR eye1) := by
      rw [hm1]
      have := abs_nonneg (camLeft LL LR eye1 - length (vsub LR LL) / 2)
      linarith
    have hlt : max (camLeft LL LR eye1) (camRight LL LR eye1) <
        max (camLeft LL LR eye2) (camRight LL LR eye2) := by
      rw [hm1, hm2]; linarith
    have hdiv : length (vsub LR LL) /
        (2 * max (camLeft LL LR eye2) (camRight LL LR eye2)) <
        length (vsub LR LL) /
        (2 * max (camLeft LL LR eye1) (camRight LL LR eye1)) := by
      apply div_lt_div_of_pos_left hW (by linarith) (by linarith)
    exact mul_lt_mul_of_pos_right hdiv hK
  · -- movement along Y: the horizontal offsets are unchanged
    have hl : camLeft LL LR eye2 = camLeft LL LR eye1 := by
      rw [hmove, camLeft, camLeft, dot_shift, hYX]; ring
    have hr : camRight LL LR eye2 = camRight LL LR eye1 := by
      rw [camRight, camRight, hl]
    rw [hl, hr]
    have hm1 : max (camBottom LL LR UR eye1) (camTop LL LR UR eye1) =
        length (vsub UR LR) / 2 +
          |camBottom LL LR UR eye1 - length (vsub UR LR) / 2| := by
      rw [camTop, max_sub_half]
    have hm2 : max (camBottom LL LR UR eye2) (camTop LL LR UR eye2) =
        length (vsub UR LR) / 2 +
          |camBottom LL LR UR eye2 - length (vsub UR LR) / 2| := by
      rw [camTop, max_sub_half]
    have hmw : length (vsub LR LL) / 2 ≤
        max (camLeft LL LR eye1) (camRight LL LR eye1) := by
      rw [camRight, max_sub_half]
      have := abs_nonneg (camLeft LL LR eye1 - length (vsub LR LL) / 2)
      linarith
    have hK : 0 < length (vsub LR LL) /
        (2 * max (camLeft LL LR eye1) (camRight LL LR eye1)) := by
      apply div_pos hW
      nlinarith
    have h1 : 0 < max (camBottom LL LR UR eye1) (camTop LL LR UR eye1) := by
      rw [hm1]
      have := abs_nonneg (camBottom LL LR UR eye1 - length (vsub UR LR) / 2)
      linarith
    have hlt : max (camBottom LL LR UR eye1) (camTop LL LR UR eye1) <
        max (camBottom LL LR UR eye2) (camTop LL LR UR eye2) := by
      rw [hm1, hm2]; linarith
    have hdiv : length (vsub UR LR) /
        (2 * max (camBottom LL LR UR eye2) (camTop LL LR UR eye2)) <
        length (vsub UR LR) /
        (2 * max (camBottom LL LR UR eye1) (camTop LL LR UR eye1)) := by
      apply div_lt_div_of_pos_left hH (by linarith) (by linarith)
    exact mul_lt_mul_of_pos_left hdiv hK

/-- Witness for C9: quad `LL=(0,0,0), LR=(2,0,0), UR=(2,2,0)`; the eye moves
from the centered `(1,1,3)` to `(3/2,1,3)` (i.e. by `t = 1/2` along `X`),
strictly increasing the horizontal asymmetry, and the image-region area
strictly shrinks. -/
theorem offaxis_asymmetry_shrinks_area_witness :
    0 < length (vsub ⟨2, 0, 0⟩ ⟨0, 0, 0⟩) ∧
    0 < length (vsub ⟨2, 2, 0⟩ ⟨2, 0, 0⟩) ∧
    dot (vsub ⟨2, 0, 0⟩ ⟨0, 0, 0⟩) (vsub ⟨2, 2, 0⟩ ⟨2, 0, 0⟩) = 0 ∧
    (⟨3 / 2, 1, 3⟩ : Vec3) =
      vadd ⟨1, 1, 3⟩ (smul (1 / 2) (quadX ⟨0, 0, 0⟩ ⟨2, 0, 0⟩)) ∧
    |camLeft ⟨0, 0, 0⟩ ⟨2, 0, 0⟩ ⟨1, 1, 3⟩ -
        length (vsub ⟨2, 0, 0⟩ ⟨0, 0, 0⟩) / 2| <
      |camLeft ⟨0, 0, 0⟩ ⟨2, 0, 0⟩ ⟨3 / 2, 1, 3⟩ -
        length (vsub ⟨2, 0, 0⟩ ⟨0, 0, 0⟩) / 2| ∧
    regionArea (offaxisStereoCamera ⟨0, 0, 0⟩ ⟨2, 0, 0⟩ ⟨2, 2, 0⟩
        ⟨3 / 2, 1, 3⟩) <
      regionArea (offaxisStereoCamera ⟨0, 0, 0⟩ ⟨2, 0, 0⟩ ⟨2, 2, 0⟩
        ⟨1, 1, 3⟩) := by
  have h4 : Real.sqrt 4 = 2 := sqrt_eval 4 2 (by norm_num) (by norm_num)
  have hlen : length (vsub (⟨2, 0, 0⟩ : Vec3) ⟨0, 0, 0⟩) = 2 := by
    simp only [Vec3.vsub, Vec3.length, Vec3.length2, Vec3.dot]
    norm_num [h4]
  have hlenH : length (vsub (⟨2, 2, 0⟩ : Vec3) ⟨2, 0, 0⟩) = 2 := by
    simp only [Vec3.vsub, Vec3.length, Vec3.length2, Vec3.dot]
    norm_num [h4]
  have hqx : quadX ⟨0, 0, 0⟩ ⟨2, 0, 0⟩ = ⟨1, 0, 0⟩ := by
    simp only [quadX, Vec3.vsub, Vec3.length, Vec3.length2, Vec3.dot, Vec3.divs]
    norm_num [h4]
  have hW : 0 < length (vsub (⟨2, 0, 0⟩ : Vec3) ⟨0, 0, 0⟩) := by
    rw [hlen]; norm_num
  have hH : 0 < length (vsub (⟨2, 2, 0⟩ : Vec3) ⟨2, 0, 0⟩) := by
    rw [hlenH]; norm_num
  have horth : dot (vsub (⟨2, 0, 0⟩ : Vec3) ⟨0, 0, 0⟩)
      (vsub (⟨2, 2, 0⟩ : Vec3) ⟨2, 0, 0⟩) = 0 := by
    simp only [Vec3.vsub, Vec3.dot]; norm_num
  have hc1 : camLeft ⟨0, 0, 0⟩ ⟨2, 0, 0⟩ ⟨1, 1, 3⟩ = 1 := by
    rw [camLeft, hqx]; simp only [Vec3.vsub, Vec3.dot]; norm_num
  have hc2 : camLeft ⟨0, 0, 0⟩ ⟨2, 0, 0⟩ ⟨3 / 2, 1, 3⟩ = 3 / 2 := by
    rw [camLeft, hqx]; simp only [Vec3.vsub, Vec3.dot]; norm_num
  have hmove : (⟨3 / 2, 1, 3⟩ : Vec3) =
      vadd ⟨1, 1, 3⟩ (smul (1 / 2) (quadX ⟨0, 0, 0⟩ ⟨2, 0, 0⟩)) := by
    rw [hqx]; simp only [Vec3.vadd, Vec3.smul]; norm_num
  have hasym : |camLeft ⟨0, 0, 0⟩ ⟨2, 0, 0⟩ ⟨1, 1, 3⟩ -
      length (vsub ⟨2, 0, 0⟩ ⟨0, 0, 0⟩) / 2| <
      |camLeft ⟨0, 0, 0⟩ ⟨2, 0, 0⟩ ⟨3 / 2, 1, 3⟩ -
        length (vsub ⟨2, 0, 0⟩ ⟨0, 0, 0⟩) / 2| := by
    rw [hc1, hc2, hlen]; norm_num
  exact ⟨hW, hH, horth, hmove, hasym,
    offaxis_asymmetry_shrinks_area ⟨0, 0, 0⟩ ⟨2, 0, 0⟩ ⟨2, 2, 0⟩ ⟨1, 1, 3⟩
      ⟨3 / 2, 1, 3⟩ (1 / 2) hW hH horth (Or.inl ⟨hmove, hasym⟩)⟩

/-! ### Claim C1: the round trip through `offaxisStereoTransform` and
`offaxisStereoCameraFromTransform` recovers the demo configuration -/

/-- Composing two scalar multiples. -/
theorem smul_smul3 (a b : ℝ) (v : Vec3) : smul a (smul b v) = smul (a * b) v := by
  ext <;> simp only [Vec3.smul] <;> ring

/-- Length scales by a nonnegative scalar factor. -/
theorem length_smul_nonneg (c : ℝ) (hc : 0 ≤ c) (v : Vec3) :
    length (smul c v) = c * length v := by
  have h2 : length2 (smul c v) = c ^ 2 * length2 v := by
    simp only [Vec3.length2, Vec3.dot, Vec3.smul]; ring
  rw [Vec3.length, h2, Real.sqrt_mul (sq_nonneg c), Real.sqrt_sq hc, Vec3.length]

/-- Normalizing is invariant under positive scaling. -/
theorem normalize_smul_pos (c : ℝ) (hc : 0 < c) (v : Vec3) :
    normalize (smul c v) = normalize v := by
  unfold Vec3.normalize
  rw [length_smul_nonneg c hc.le v]
  ext <;> simp only [Vec3.divs, Vec3.smul] <;>
    rw [mul_div_mul_left _ _ (ne_of_gt hc)]

/-- `normalize v` as the scalar multiple `(1/length v) • v`. -/
theorem normalize_as_smul (v : Vec3) : normalize v = smul (1 / length v) v := by
  ext <;> simp only [Vec3.normalize, Vec3.divs, Vec3.smul] <;> ring

/-- The cross product is linear in its first argument. -/
theorem cross_smul_left (c : ℝ) (u v : Vec3) :
    cross (smul c u) v = smul c (cross u v) := by
  ext <;> simp only [Vec3.cross, Vec3.smul] <;> ring

/-- The cross product is linear in its second argument. -/
theorem cross_smul_right (c : ℝ) (u v : Vec3) :
    cross u (smul c v) = smul c (cross u v) := by
  ext <;> simp only [Vec3.cross, Vec3.smul] <;> ring

/-- A vector of positive squared length has positive length. -/
theorem length_pos_of_length2_pos (v : Vec3) (h : 0 < length2 v) :
    0 < length v := by
  rw [Vec3.length]; exact Real.sqrt_pos.mpr h

/-- Scale invariance of `intersectPlanePlane`: scaling the two plane
normals by nonzero factors keeps success and the intersection point, and
scales the returned direction by the product of the factors. -/
theorem ipp_smul (c d : ℝ) (hc : c ≠ 0) (hd : d ≠ 0) (na pa nb pb j1 j2 : Vec3)
    (h : length2 (cross na nb) ≠ 0) :
    intersectPlanePlane (smul c na) pa (smul d nb) pb j1 j2 =
      (true, smul (c * d) (cross na nb),
        (intersectPlanePlane na pa nb pb j1 j2).2.2) := by
  have hcr : cross (smul c na) (smul d nb) = smul (c * d) (cross na nb) := by
    rw [cross_smul_left, cross_smul_right, smul_smul3]
  have hl2 : length2 (smul (c * d) (cross na nb)) =
      (c * d) ^ 2 * length2 (cross na nb) := by
    simp only [Vec3.length2, Vec3.dot, Vec3.smul]; ring
  have hne : length2 (cross (smul c na) (smul d nb)) ≠ 0 := by
    rw [hcr, hl2]
    exact mul_ne_zero (pow_ne_zero 2 (mul_ne_zero hc hd)) h
  simp only [intersectPlanePlane]
  rw [if_neg hne, if_neg h]
  simp only [Prod.mk.injEq]
  refine ⟨trivial, hcr, ?_⟩
  ext
  · simp only [Vec3.divs, Vec3.vadd, Vec3.smul, Vec3.cross, Vec3.dot,
      Vec3.length2] at h hne ⊢
    field_simp
    ring
  · simp only [Vec3.divs, Vec3.vadd, Vec3.smul, Vec3.cross, Vec3.dot,
      Vec3.length2] at h hne ⊢
    field_simp
    ring
  · simp only [Vec3.divs, Vec3.vadd, Vec3.smul, Vec3.cross, Vec3.dot,
      Vec3.length2] at h hne ⊢
    field_simp
    ring

/-- Scale invariance of `closestLineSegmentBetweenTwoLines`: positively
rescaling the two line directions leaves both returned points unchanged. -/
theorem closest_smul (c d : ℝ) (hc : 0 < c) (hd : 0 < d)
    (na pa nb pb j1 j2 : Vec3) :
    closestLineSegmentBetweenTwoLines (smul c na) pa (smul d nb) pb j1 j2 =
      closestLineSegmentBetweenTwoLines na pa nb pb j1 j2 := by
  have hnc : normalize (cross (smul c na) (smul d nb)) =
      normalize (cross na nb) := by
    rw [cross_smul_left, cross_smul_right, smul_smul3]
    exact normalize_smul_pos (c * d) (mul_pos hc hd) _
  simp only [closestLineSegmentBetweenTwoLines, hnc, solve]
  have hdet : Mat3.determinant ⟨smul c na, vneg (smul d nb),
      normalize (cross na nb)⟩ =
      c * d * Mat3.determinant ⟨na, vneg nb, normalize (cross na nb)⟩ := by
    simp only [Mat3.determinant, Vec3.smul, Vec3.vneg]; ring
  by_cases hD : Mat3.determinant ⟨na, vneg nb, normalize (cross na nb)⟩ = 0
  · rw [if_pos (show Mat3.determinant ⟨smul c na, vneg (smul d nb),
        normalize (cross na nb)⟩ = 0 by rw [hdet, hD, mul_zero]), if_pos hD]
    simp
  · have hD' : Mat3.determinant ⟨smul c na, vneg (smul d nb),
        normalize (cross na nb)⟩ ≠ 0 := by
      rw [hdet]
      exact mul_ne_zero (mul_ne_zero (ne_of_gt hc) (ne_of_gt hd)) hD
    have hD1 : Mat3.determinant ⟨vsub pb pa, vneg (smul d nb),
        normalize (cross na nb)⟩ =
        d * Mat3.determinant ⟨vsub pb pa, vneg nb, normalize (cross na nb)⟩ := by
      simp only [Mat3.determinant, Vec3.vneg, Vec3.smul]; ring
    have hD2 : Mat3.determinant ⟨smul c na, vsub pb pa,
        normalize (cross na nb)⟩ =
        c * Mat3.determinant ⟨na, vsub pb pa, normalize (cross na nb)⟩ := by
      simp only [Mat3.determinant, Vec3.vneg, Vec3.smul]; ring
    rw [if_neg hD', if_neg hD]
    simp only [if_true]
    rw [hdet, hD1, hD2]
    simp only [Prod.mk.injEq]
    constructor
    · ext <;>
      · simp only [Vec3.vadd, Vec3.smul]
        field_simp
        ring
    · ext <;>
      · simp only [Vec3.vadd, Vec3.smul]
        field_simp
        ring

/-- NDC corner `(-1,-1,-1)` unprojected through the demo inverse pair. -/
theorem c1_v000 : unprojectNDC c1ProjInv c1ViewInv ⟨-1, -1, -1⟩ =
    ⟨1499/1000, 10493/6250, 1499/1000⟩ := by
  simp only [unprojectNDC, Mat4.mulVec, c1ProjInv, c1ViewInv, Vec3.divs]
  norm_num

/-- NDC corner `(-1,-1,1)` unprojected through the demo inverse pair. -/
theorem c1_v001 : unprojectNDC c1ProjInv c1ViewInv ⟨-1, -1, 1⟩ =
    ⟨-1997/2, -27958/25, -1997/2⟩ := by
  simp only [unprojectNDC, Mat4.mulVec, c1ProjInv, c1ViewInv, Vec3.divs]
  norm_num

/-- The left/right frustum planes of the demo configuration intersect in
the vertical line through `(3/2, 0, 3/2)` (with unnormalized normals; the
normalization factors are handled by `ipp_smul`). -/
theorem c1_ippLR_raw (j1 j2 : Vec3) :
    intersectPlanePlane ⟨-999999/1000, 0, 999999/1000⟩
      ⟨1499/1000, 10493/6250, 1499/1000⟩
      ⟨999999/1000, 0, 999999/1000⟩
      ⟨1501/1000, 10493/6250, 1499/1000⟩ j1 j2 =
      (true, ⟨0, 999998000001/500000, 0⟩, ⟨3/2, 0, 3/2⟩) := by
  norm_num [intersectPlanePlane, Vec3.cross, Vec3.length2, Vec3.dot,
    Vec3.divs, Vec3.vadd, Vec3.smul]

/-- The bottom/top frustum planes of the demo configuration intersect in
the horizontal line through `(0, 42/25, 3/2)`. -/
theorem c1_ippBT_raw (j1 j2 : Vec3) :
    intersectPlanePlane ⟨0, -999999/1000, 6999993/6250⟩
      ⟨1499/1000, 10493/6250, 1499/1000⟩
      ⟨0, 999999/1000, 10999989/12500⟩
      ⟨1499/1000, 21011/12500, 1499/1000⟩ j1 j2 =
      (true, ⟨-999998000001/500000, 0, 0⟩, ⟨0, 42/25, 3/2⟩) := by
  norm_num [intersectPlanePlane, Vec3.cross, Vec3.length2, Vec3.dot,
    Vec3.divs, Vec3.vadd, Vec3.smul]

/-- The two reconstructed apex lines of the demo configuration intersect at
the original eye `(3/2, 42/25, 3/2)`: both closest points coincide there. -/
theorem c1_closest_raw (j1 j2 : Vec3) :
    closestLineSegmentBetweenTwoLines ⟨0, 1, 0⟩ ⟨3/2, 0, 3/2⟩ ⟨-1, 0, 0⟩
      ⟨0, 42/25, 3/2⟩ j1 j2 =
      (⟨3/2, 42/25, 3/2⟩, ⟨3/2, 42/25, 3/2⟩) := by
  norm_num [closestLineSegmentBetweenTwoLines, Vec3.cross, Vec3.normalize,
    Vec3.length, Vec3.length2, Vec3.dot, Vec3.divs, Vec3.vadd, Vec3.smul,
    Vec3.vneg, Vec3.vsub, solve, Mat3.determinant]

/-- `offaxisStereoTransform` on the demo input evaluates to the explicit
projection/view pair. -/
theorem c1_transform_eval :
    offaxisStereoTransform ⟨0, 0, 0⟩ ⟨3, 0, 0⟩ ⟨3, 3, 0⟩ ⟨1.5, 1.68, 1.5⟩ =
      (⟨⟨1, 0, 0, 0⟩, ⟨0, 1, 0, 0⟩, ⟨0, -3/25, -(1000001/999999), -1⟩,
        ⟨0, 0, -(2000/999999), 0⟩⟩,
       ⟨⟨1, 0, 0, 0⟩, ⟨0, 1, 0, 0⟩, ⟨0, 0, 1, 0⟩, ⟨-(3/2), -(42/25), -(3/2), 1⟩⟩) := by
  have h9 : Real.sqrt 9 = 3 := sqrt_eval 9 3 (by norm_num) (by norm_num)
  have hlen : length (vsub (⟨3, 0, 0⟩ : Vec3) ⟨0, 0, 0⟩) = 3 := by
    simp only [Vec3.vsub, Vec3.length, Vec3.length2, Vec3.dot]
    norm_num [h9]
  have hlenH : length (vsub (⟨3, 3, 0⟩ : Vec3) ⟨3, 0, 0⟩) = 3 := by
    simp only [Vec3.vsub, Vec3.length, Vec3.length2, Vec3.dot]
    norm_num [h9]
  have hX : quadX ⟨0, 0, 0⟩ ⟨3, 0, 0⟩ = ⟨1, 0, 0⟩ := by
    rw [quadX, hlen]
    simp only [Vec3.vsub, Vec3.divs]
    norm_num
  have hY : quadY ⟨3, 0, 0⟩ ⟨3, 3, 0⟩ = ⟨0, 1, 0⟩ := by
    rw [quadY, hlenH]
    simp only [Vec3.vsub, Vec3.divs]
    norm_num
  have hZ : quadZ ⟨0, 0, 0⟩ ⟨3, 0, 0⟩ ⟨3, 3, 0⟩ = ⟨0, 0, 1⟩ := by
    rw [quadZ, hX, hY]
    simp only [Vec3.cross]
    norm_num
  have hL : camLeft ⟨0, 0, 0⟩ ⟨3, 0, 0⟩ ⟨1.5, 1.68, 1.5⟩ = 3/2 := by
    rw [camLeft, hX]
    simp only [Vec3.vsub, Vec3.dot]
    norm_num
  have hR : camRight ⟨0, 0, 0⟩ ⟨3, 0, 0⟩ ⟨1.5, 1.68, 1.5⟩ = 3/2 := by
    rw [camRight, hlen, hL]
    norm_num
  have hB : camBottom ⟨0, 0, 0⟩ ⟨3, 0, 0⟩ ⟨3, 3, 0⟩ ⟨1.5, 1.68, 1.5⟩ = 42/25 := by
    rw [camBottom, hY]
    simp only [Vec3.vsub, Vec3.dot]
    norm_num
  have hT : camTop ⟨0, 0, 0⟩ ⟨3, 0, 0⟩ ⟨3, 3, 0⟩ ⟨1.5, 1.68, 1.5⟩ = 33/25 := by
    rw [camTop, hlenH, hB]
    norm_num
  have hD : camDist ⟨0, 0, 0⟩ ⟨3, 0, 0⟩ ⟨3, 3, 0⟩ ⟨1.5, 1.68, 1.5⟩ = 3/2 := by
    rw [camDist, hZ]
    simp only [Vec3.vsub, Vec3.dot]
    norm_num
  simp only [offaxisStereoTransform, hL, hR, hB, hT, hD, hX, hY, hZ, frustum]
  norm_num

/-- `c1ProjInv` and `c1ViewInv` are two-sided inverses of the matrices
produced by `offaxisStereoTransform` on the demo input. -/
theorem c1_inverses :
    Mat4.mulMat (offaxisStereoTransform ⟨0, 0, 0⟩ ⟨3, 0, 0⟩ ⟨3, 3, 0⟩
        ⟨1.5, 1.68, 1.5⟩).1 c1ProjInv = Mat4.idMat ∧
    Mat4.mulMat c1ProjInv (offaxisStereoTransform ⟨0, 0, 0⟩ ⟨3, 0, 0⟩ ⟨3, 3, 0⟩
        ⟨1.5, 1.68, 1.5⟩).1 = Mat4.idMat ∧
    Mat4.mulMat (offaxisStereoTransform ⟨0, 0, 0⟩ ⟨3, 0, 0⟩ ⟨3, 3, 0⟩
        ⟨1.5, 1.68, 1.5⟩).2 c1ViewInv = Mat4.idMat ∧
    Mat4.mulMat c1ViewInv (offaxisStereoTransform ⟨0, 0, 0⟩ ⟨3, 0, 0⟩ ⟨3, 3, 0⟩
        ⟨1.5, 1.68, 1.5⟩).2 = Mat4.idMat := by
  rw [c1_transform_eval]
  norm_num [Mat4.mulMat, Mat4.mulVec, Mat4.idMat, c1ProjInv, c1ViewInv]

/-- NDC corner `(1,-1,-1)` unprojected through the demo inverse pair. -/
theorem c1_v100 : unprojectNDC c1ProjInv c1ViewInv ⟨1, -1, -1⟩ =
    ⟨1501/1000, 10493/6250, 1499/1000⟩ := by
  simp only [unprojectNDC, Mat4.mulVec, c1ProjInv, c1ViewInv, Vec3.divs]
  norm_num

/-- NDC corner `(1,-1,1)` unprojected through the demo inverse pair. -/
theorem c1_v101 : unprojectNDC c1ProjInv c1ViewInv ⟨1, -1, 1⟩ =
    ⟨2003/2, -27958/25, -1997/2⟩ := by
  simp only [unprojectNDC, Mat4.mulVec, c1ProjInv, c1ViewInv, Vec3.divs]
  norm_num

/-- NDC corner `(1,1,-1)` unprojected through the demo inverse pair. -/
theorem c1_v110 : unprojectNDC c1ProjInv c1ViewInv ⟨1, 1, -1⟩ =
    ⟨1501/1000, 21011/12500, 1499/1000⟩ := by
  simp only [unprojectNDC, Mat4.mulVec, c1ProjInv, c1ViewInv, Vec3.divs]
  norm_num

/-- NDC corner `(1,1,1)` unprojected through the demo inverse pair. -/
theorem c1_v111 : unprojectNDC c1ProjInv c1ViewInv ⟨1, 1, 1⟩ =
    ⟨2003/2, 22042/25, -1997/2⟩ := by
  simp only [unprojectNDC, Mat4.mulVec, c1ProjInv, c1ViewInv, Vec3.divs]
  norm_num

/-- NDC corner `(-1,1,-1)` unprojected through the demo inverse pair. -/
theorem c1_v010 : unprojectNDC c1ProjInv c1ViewInv ⟨-1, 1, -1⟩ =
    ⟨1499/1000, 21011/12500, 1499/1000⟩ := by
  simp only [unprojectNDC, Mat4.mulVec, c1ProjInv, c1ViewInv, Vec3.divs]
  norm_num

/-- NDC corner `(-1,1,1)` unprojected through the demo inverse pair. -/
theorem c1_v011 : unprojectNDC c1ProjInv c1ViewInv ⟨-1, 1, 1⟩ =
    ⟨-1997/2, 22042/25, -1997/2⟩ := by
  simp only [unprojectNDC, Mat4.mulVec, c1ProjInv, c1ViewInv, Vec3.divs]
  norm_num

/-- `offaxisStereoCamera` on the far-plane quad recovered by the inverse
transform, with the recovered eye. -/
theorem c1_cam_eval :
    offaxisStereoCamera ⟨-1997/2, -27958/25, -1997/2⟩
      ⟨2003/2, -27958/25, -1997/2⟩ ⟨2003/2, 22042/25, -1997/2⟩
      ⟨3/2, 42/25, 3/2⟩ =
      { dir := ⟨0, 0, -1⟩, up := ⟨0, 1, 0⟩, fovy := 2 * Real.arctan (28/25),
        aspect := 25/28, imageRegion := ⟨0, 0, 1, 25/28⟩ } := by
  have hs : Real.sqrt 4000000 = 2000 :=
    sqrt_eval 4000000 2000 (by norm_num) (by norm_num)
  have hlenW : length (vsub (⟨2003/2, -27958/25, -1997/2⟩ : Vec3)
      ⟨-1997/2, -27958/25, -1997/2⟩) = 2000 := by
    simp only [Vec3.vsub, Vec3.length, Vec3.length2, Vec3.dot]
    norm_num [hs]
  have hlenH : length (vsub (⟨2003/2, 22042/25, -1997/2⟩ : Vec3)
      ⟨2003/2, -27958/25, -1997/2⟩) = 2000 := by
    simp only [Vec3.vsub, Vec3.length, Vec3.length2, Vec3.dot]
    norm_num [hs]
  have hX : quadX ⟨-1997/2, -27958/25, -1997/2⟩ ⟨2003/2, -27958/25, -1997/2⟩ =
      ⟨1, 0, 0⟩ := by
    rw [quadX, hlenW]
    simp only [Vec3.vsub, Vec3.divs]
    norm_num
  have hY : quadY ⟨2003/2, -27958/25, -1997/2⟩ ⟨2003/2, 22042/25, -1997/2⟩ =
      ⟨0, 1, 0⟩ := by
    rw [quadY, hlenH]
    simp only [Vec3.vsub, Vec3.divs]
    norm_num
  have hZ : quadZ ⟨-1997/2, -27958/25, -1997/2⟩ ⟨2003/2, -27958/25, -1997/2⟩
      ⟨2003/2, 22042/25, -1997/2⟩ = ⟨0, 0, 1⟩ := by
    rw [quadZ, hX, hY]
    simp only [Vec3.cross]
    norm_num
  have hL : camLeft ⟨-1997/2, -27958/25, -1997/2⟩ ⟨2003/2, -27958/25, -1997/2⟩
      ⟨3/2, 42/25, 3/2⟩ = 1000 := by
    rw [camLeft, hX]
    simp only [Vec3.vsub, Vec3.dot]
    norm_num
  have hR : camRight ⟨-1997/2, -27958/25, -1997/2⟩ ⟨2003/2, -27958/25, -1997/2⟩
      ⟨3/2, 42/25, 3/2⟩ = 1000 := by
    rw [camRight, hlenW, hL]
    norm_num
  have hB : camBottom ⟨-1997/2, -27958/25, -1997/2⟩
      ⟨2003/2, -27958/25, -1997/2⟩ ⟨2003/2, 22042/25, -1997/2⟩
      ⟨3/2, 42/25, 3/2⟩ = 1120 := by
    rw [camBottom, hY]
    simp only [Vec3.vsub, Vec3.dot]
    norm_num
  have hT : camTop ⟨-1997/2, -27958/25, -1997/2⟩ ⟨2003/2, -27958/25, -1997/2⟩
      ⟨2003/2, 22042/25, -1997/2⟩ ⟨3/2, 42/25, 3/2⟩ = 880 := by
    rw [camTop, hlenH, hB]
    norm_num
  have hD : camDist ⟨-1997/2, -27958/25, -1997/2⟩ ⟨2003/2, -27958/25, -1997/2⟩
      ⟨2003/2, 22042/25, -1997/2⟩ ⟨3/2, 42/25, 3/2⟩ = 1000 := by
    rw [camDist, hZ]
    simp only [Vec3.vsub, Vec3.dot]
    norm_num
  simp only [offaxisStereoCamera, hL, hR, hB, hT, hD, hY, hZ, Vec3.vneg]
  norm_num

/-- Full evaluation of `offaxisStereoCameraFromTransform` on the demo
inverse matrices: the eye is recovered exactly and the emitted symmetric
camera is explicit, for every value of the never-assigned locals. -/
theorem c1_fromTransform_eval (nLR0 pLR0 nBT0 pBT0 p10 p20 : Vec3) :
    offaxisStereoCameraFromTransform c1ProjInv c1ViewInv
      nLR0 pLR0 nBT0 pBT0 p10 p20 =
      (⟨3/2, 42/25, 3/2⟩,
       { dir := ⟨0, 0, -1⟩, up := ⟨0, 1, 0⟩, fovy := 2 * Real.arctan (28/25),
         aspect := 25/28, imageRegion := ⟨0, 0, 1, 25/28⟩ }) := by
  -- edge difference evaluations
  have hsub_ez00 : vsub (⟨-1997/2, -27958/25, -1997/2⟩ : Vec3)
      ⟨1499/1000, 10493/6250, 1499/1000⟩ =
      ⟨-999999/1000, -6999993/6250, -999999/1000⟩ := by
    simp only [Vec3.vsub]; norm_num
  have hsub_ez10 : vsub (⟨2003/2, -27958/25, -1997/2⟩ : Vec3)
      ⟨1501/1000, 10493/6250, 1499/1000⟩ =
      ⟨999999/1000, -6999993/6250, -999999/1000⟩ := by
    simp only [Vec3.vsub]; norm_num
  have hsub_ez01 : vsub (⟨-1997/2, 22042/25, -1997/2⟩ : Vec3)
      ⟨1499/1000, 21011/12500, 1499/1000⟩ =
      ⟨-999999/1000, 10999989/12500, -999999/1000⟩ := by
    simp only [Vec3.vsub]; norm_num
  have hsub_ey00 : vsub (⟨1499/1000, 21011/12500, 1499/1000⟩ : Vec3)
      ⟨1499/1000, 10493/6250, 1499/1000⟩ = ⟨0, 1/500, 0⟩ := by
    simp only [Vec3.vsub]; norm_num
  have hsub_ey10 : vsub (⟨1501/1000, 21011/12500, 1499/1000⟩ : Vec3)
      ⟨1501/1000, 10493/6250, 1499/1000⟩ = ⟨0, 1/500, 0⟩ := by
    simp only [Vec3.vsub]; norm_num
  have hsub_ex00 : vsub (⟨1501/1000, 10493/6250, 1499/1000⟩ : Vec3)
      ⟨1499/1000, 10493/6250, 1499/1000⟩ = ⟨1/500, 0, 0⟩ := by
    simp only [Vec3.vsub]; norm_num
  have hsub_ex10 : vsub (⟨1501/1000, 21011/12500, 1499/1000⟩ : Vec3)
      ⟨1499/1000, 21011/12500, 1499/1000⟩ = ⟨1/500, 0, 0⟩ := by
    simp only [Vec3.vsub]; norm_num
  -- unit edges
  have hsq500 : Real.sqrt (1/250000) = 1/500 :=
    sqrt_eval (1/250000) (1/500) (by norm_num) (by norm_num)
  have hey : normalize (⟨0, 1/500, 0⟩ : Vec3) = ⟨0, 1, 0⟩ := by
    simp only [Vec3.normalize, Vec3.length, Vec3.length2, Vec3.dot, Vec3.divs]
    norm_num [hsq500]
  have hex : normalize (⟨1/500, 0, 0⟩ : Vec3) = ⟨1, 0, 0⟩ := by
    simp only [Vec3.normalize, Vec3.length, Vec3.length2, Vec3.dot, Vec3.divs]
    norm_num [hsq500]
  -- positive lengths of the raw (unnormalized) edge and normal vectors
  have hlwz00 : 0 < length ⟨-999999/1000, -6999993/6250, -999999/1000⟩ :=
    length_pos_of_length2_pos _ (by norm_num [Vec3.length2, Vec3.dot])
  have hlwz10 : 0 < length ⟨999999/1000, -6999993/6250, -999999/1000⟩ :=
    length_pos_of_length2_pos _ (by norm_num [Vec3.length2, Vec3.dot])
  have hlwz01 : 0 < length ⟨-999999/1000, 10999989/12500, -999999/1000⟩ :=
    length_pos_of_length2_pos _ (by norm_num [Vec3.length2, Vec3.dot])
  have huL : 0 < length ⟨-999999/1000, 0, 999999/1000⟩ :=
    length_pos_of_length2_pos _ (by norm_num [Vec3.length2, Vec3.dot])
  have huR : 0 < length ⟨999999/1000, 0, 999999/1000⟩ :=
    length_pos_of_length2_pos _ (by norm_num [Vec3.length2, Vec3.dot])
  have huB : 0 < length ⟨0, -999999/1000, 6999993/6250⟩ :=
    length_pos_of_length2_pos _ (by norm_num [Vec3.length2, Vec3.dot])
  have huT : 0 < length ⟨0, 999999/1000, 10999989/12500⟩ :=
    length_pos_of_length2_pos _ (by norm_num [Vec3.length2, Vec3.dot])
  -- the four face normals, reduced to positive multiples of rational vectors
  have hnL : normalize (cross ⟨0, 1, 0⟩
      (normalize ⟨-999999/1000, -6999993/6250, -999999/1000⟩)) =
      smul (1 / length ⟨-999999/1000, 0, 999999/1000⟩)
        ⟨-999999/1000, 0, 999999/1000⟩ := by
    rw [normalize_as_smul ⟨-999999/1000, -6999993/6250, -999999/1000⟩,
      cross_smul_right]
    have hc : cross (⟨0, 1, 0⟩ : Vec3)
        ⟨-999999/1000, -6999993/6250, -999999/1000⟩ =
        ⟨-999999/1000, 0, 999999/1000⟩ := by
      simp only [Vec3.cross]; norm_num
    rw [hc, normalize_smul_pos _ (one_div_pos.mpr hlwz00) _, normalize_as_smul]
  have hnR : normalize (cross
      (normalize ⟨999999/1000, -6999993/6250, -999999/1000⟩) ⟨0, 1, 0⟩) =
      smul (1 / length ⟨999999/1000, 0, 999999/1000⟩)
        ⟨999999/1000, 0, 999999/1000⟩ := by
    rw [normalize_as_smul ⟨999999/1000, -6999993/6250, -999999/1000⟩,
      cross_smul_left]
    have hc : cross (⟨999999/1000, -6999993/6250, -999999/1000⟩ : Vec3)
        ⟨0, 1, 0⟩ = ⟨999999/1000, 0, 999999/1000⟩ := by
      simp only [Vec3.cross]; norm_num
    rw [hc, normalize_smul_pos _ (one_div_pos.mpr hlwz10) _, normalize_as_smul]
  have hnB : normalize (cross
      (normalize ⟨-999999/1000, -6999993/6250, -999999/1000⟩) ⟨1, 0, 0⟩) =
      smul (1 / length ⟨0, -999999/1000, 6999993/6250⟩)
        ⟨0, -999999/1000, 6999993/6250⟩ := by
    rw [normalize_as_smul ⟨-999999/1000, -6999993/6250, -999999/1000⟩,
      cross_smul_left]
    have hc : cross (⟨-999999/1000, -6999993/6250, -999999/1000⟩ : Vec3)
        ⟨1, 0, 0⟩ = ⟨0, -999999/1000, 6999993/6250⟩ := by
      simp only [Vec3.cross]; norm_num
    rw [hc, normalize_smul_pos _ (one_div_pos.mpr hlwz00) _, normalize_as_smul]
  have hnT : normalize (cross ⟨1, 0, 0⟩
      (normalize ⟨-999999/1000, 10999989/12500, -999999/1000⟩)) =
      smul (1 / length ⟨0, 999999/1000, 10999989/12500⟩)
        ⟨0, 999999/1000, 10999989/12500⟩ := by
    rw [normalize_as_smul ⟨-999999/1000, 10999989/12500, -999999/1000⟩,
      cross_smul_right]
    have hc : cross (⟨1, 0, 0⟩ : Vec3)
        ⟨-999999/1000, 10999989/12500, -999999/1000⟩ =
        ⟨0, 999999/1000, 10999989/12500⟩ := by
      simp only [Vec3.cross]; norm_num
    rw [hc, normalize_smul_pos _ (one_div_pos.mpr hlwz01) _, normalize_as_smul]
  -- the two plane-plane intersections
  have hippLR : intersectPlanePlane
      (smul (1 / length ⟨-999999/1000, 0, 999999/1000⟩)
        ⟨-999999/1000, 0, 999999/1000⟩)
      ⟨1499/1000, 10493/6250, 1499/1000⟩
      (smul (1 / length ⟨999999/1000, 0, 999999/1000⟩)
        ⟨999999/1000, 0, 999999/1000⟩)
      ⟨1501/1000, 10493/6250, 1499/1000⟩ nLR0 pLR0 =
      (true, smul ((1 / length ⟨-999999/1000, 0, 999999/1000⟩) *
        (1 / length ⟨999999/1000, 0, 999999/1000⟩)) ⟨0, 999998000001/500000, 0⟩,
       ⟨3/2, 0, 3/2⟩) := by
    rw [ipp_smul _ _ (ne_of_gt (one_div_pos.mpr huL))
      (ne_of_gt (one_div_pos.mpr huR)) _ _ _ _ _ _
      (by norm_num [Vec3.cross, Vec3.length2, Vec3.dot])]
    rw [show cross (⟨-999999/1000, 0, 999999/1000⟩ : Vec3)
        ⟨999999/1000, 0, 999999/1000⟩ = ⟨0, 999998000001/500000, 0⟩ by
      simp only [Vec3.cross]; norm_num]
    rw [c1_ippLR_raw]
  have hippBT : intersectPlanePlane
      (smul (1 / length ⟨0, -999999/1000, 6999993/6250⟩)
        ⟨0, -999999/1000, 6999993/6250⟩)
      ⟨1499/1000, 10493/6250, 1499/1000⟩
      (smul (1 / length ⟨0, 999999/1000, 10999989/12500⟩)
        ⟨0, 999999/1000, 10999989/12500⟩)
      ⟨1499/1000, 21011/12500, 1499/1000⟩ nBT0 pBT0 =
      (true, smul ((1 / length ⟨0, -999999/1000, 6999993/6250⟩) *
        (1 / length ⟨0, 999999/1000, 10999989/12500⟩))
        ⟨-999998000001/500000, 0, 0⟩,
       ⟨0, 42/25, 3/2⟩) := by
    rw [ipp_smul _ _ (ne_of_gt (one_div_pos.mpr huB))
      (ne_of_gt (one_div_pos.mpr huT)) _ _ _ _ _ _
      (by norm_num [Vec3.cross, Vec3.length2, Vec3.dot])]
    rw [show cross (⟨0, -999999/1000, 6999993/6250⟩ : Vec3)
        ⟨0, 999999/1000, 10999989/12500⟩ = ⟨-999998000001/500000, 0, 0⟩ by
      simp only [Vec3.cross]; norm_num]
    rw [c1_ippBT_raw]
  -- closest points between the two reconstructed lines
  have hd1 : smul ((1 / length ⟨-999999/1000, 0, 999999/1000⟩) *
      (1 / length ⟨999999/1000, 0, 999999/1000⟩)) ⟨0, 999998000001/500000, 0⟩ =
      smul ((1 / length ⟨-999999/1000, 0, 999999/1000⟩) *
        (1 / length ⟨999999/1000, 0, 999999/1000⟩) * (999998000001/500000))
        ⟨0, 1, 0⟩ := by
    rw [show (⟨0, 999998000001/500000, 0⟩ : Vec3) =
      smul (999998000001/500000) ⟨0, 1, 0⟩ by simp only [Vec3.smul]; norm_num]
    rw [smul_smul3]
  have hd2 : smul ((1 / length ⟨0, -999999/1000, 6999993/6250⟩) *
      (1 / length ⟨0, 999999/1000, 10999989/12500⟩))
      ⟨-999998000001/500000, 0, 0⟩ =
      smul ((1 / length ⟨0, -999999/1000, 6999993/6250⟩) *
        (1 / length ⟨0, 999999/1000, 10999989/12500⟩) * (999998000001/500000))
        ⟨-1, 0, 0⟩ := by
    rw [show (⟨-999998000001/500000, 0, 0⟩ : Vec3) =
      smul (999998000001/500000) ⟨-1, 0, 0⟩ by simp only [Vec3.smul]; norm_num]
    rw [smul_smul3]
  have hclosest : closestLineSegmentBetweenTwoLines
      (smul ((1 / length ⟨-999999/1000, 0, 999999/1000⟩) *
        (1 / length ⟨999999/1000, 0, 999999/1000⟩) * (999998000001/500000))
        ⟨0, 1, 0⟩) ⟨3/2, 0, 3/2⟩
      (smul ((1 / length ⟨0, -999999/1000, 6999993/6250⟩) *
        (1 / length ⟨0, 999999/1000, 10999989/12500⟩) * (999998000001/500000))
        ⟨-1, 0, 0⟩) ⟨0, 42/25, 3/2⟩ p10 p20 =
      (⟨3/2, 42/25, 3/2⟩, ⟨3/2, 42/25, 3/2⟩) := by
    rw [closest_smul _ _
      (by positivity) (by positivity) _ _ _ _ _ _]
    exact c1_closest_raw p10 p20
  have hmid : divs (vadd (⟨3/2, 42/25, 3/2⟩ : Vec3) ⟨3/2, 42/25, 3/2⟩) 2 =
      ⟨3/2, 42/25, 3/2⟩ := by
    simp only [Vec3.divs, Vec3.vadd]; norm_num
  simp only [offaxisStereoCameraFromTransform, c1_v000, c1_v001, c1_v100,
    c1_v101, c1_v110, c1_v111, c1_v010, c1_v011, hsub_ez00, hsub_ez10,
    hsub_ez01, hsub_ey00, hsub_ey10, hsub_ex00, hsub_ex10, hey, hex, hnL, hnR,
    hnB, hnT, hippLR, hippBT, hd1, hd2, hclosest, hmid, c1_cam_eval]

/-- Claim C1: for the quad `LL=(0,0,0), LR=(3,0,0), UR=(3,3,0)` and
`eye=(1.5,1.68,1.5)`, `offaxisStereoTransform` produces a projection/view
pair whose (two-sided, hence unique) inverses are `c1ProjInv`/`c1ViewInv`,
and `offaxisStereoCameraFromTransform` applied to those inverses returns an
eye within `1e-3` of `(1.5,1.68,1.5)` (here: exactly equal), a positive
`fovy`, a positive `aspect`, and all four imageRegion components within
`[0,1]` — for every initial value of its uninitialized locals. -/
theorem c1_round_trip :
    Mat4.mulMat (offaxisStereoTransform ⟨0, 0, 0⟩ ⟨3, 0, 0⟩ ⟨3, 3, 0⟩
        ⟨1.5, 1.68, 1.5⟩).1 c1ProjInv = Mat4.idMat ∧
    Mat4.mulMat c1ProjInv (offaxisStereoTransform ⟨0, 0, 0⟩ ⟨3, 0, 0⟩
        ⟨3, 3, 0⟩ ⟨1.5, 1.68, 1.5⟩).1 = Mat4.idMat ∧
    Mat4.mulMat (offaxisStereoTransform ⟨0, 0, 0⟩ ⟨3, 0, 0⟩ ⟨3, 3, 0⟩
        ⟨1.5, 1.68, 1.5⟩).2 c1ViewInv = Mat4.idMat ∧
    Mat4.mulMat c1ViewInv (offaxisStereoTransform ⟨0, 0, 0⟩ ⟨3, 0, 0⟩
        ⟨3, 3, 0⟩ ⟨1.5, 1.68, 1.5⟩).2 = Mat4.idMat ∧
    ∀ nLR0 pLR0 nBT0 pBT0 p10 p20 : Vec3,
      |(offaxisStereoCameraFromTransform c1ProjInv c1ViewInv nLR0 pLR0 nBT0
          pBT0 p10 p20).1.x - 1.5| < 1e-3 ∧
      |(offaxisStereoCameraFromTransform c1ProjInv c1ViewInv nLR0 pLR0 nBT0
          pBT0 p10 p20).1.y - 1.68| < 1e-3 ∧
      |(offaxisStereoCameraFromTransform c1ProjInv c1ViewInv nLR0 pLR0 nBT0
          pBT0 p10 p20).1.z - 1.5| < 1e-3 ∧
      0 < (offaxisStereoCameraFromTransform c1ProjInv c1ViewInv nLR0 pLR0 nBT0
          pBT0 p10 p20).2.fovy ∧
      0 < (offaxisStereoCameraFromTransform c1ProjInv c1ViewInv nLR0 pLR0 nBT0
          pBT0 p10 p20).2.aspect ∧
      0 ≤ (offaxisStereoCameraFromTransform c1ProjInv c1ViewInv nLR0 pLR0 nBT0
          pBT0 p10 p20).2.imageRegion.x ∧
      (offaxisStereoCameraFromTransform c1ProjInv c1ViewInv nLR0 pLR0 nBT0
          pBT0 p10 p20).2.imageRegion.x ≤ 1 ∧
      0 ≤ (offaxisStereoCameraFromTransform c1ProjInv c1ViewInv nLR0 pLR0 nBT0
          pBT0 p10 p20).2.imageRegion.y ∧
      (offaxisStereoCameraFromTransform c1ProjInv c1ViewInv nLR0 pLR0 nBT0
          pBT0 p10 p20).2.imageRegion.y ≤ 1 ∧
      0 ≤ (offaxisStereoCameraFromTransform c1ProjInv c1ViewInv nLR0 pLR0 nBT0
          pBT0 p10 p20).2.imageRegion.z ∧
      (offaxisStereoCameraFromTransform c1ProjInv c1ViewInv nLR0 pLR0 nBT0
          pBT0 p10 p20).2.imageRegion.z ≤ 1 ∧
      0 ≤ (offaxisStereoCameraFromTransform c1ProjInv c1ViewInv nLR0 pLR0 nBT0
          pBT0 p10 p20).2.imageRegion.w ∧
      (offaxisStereoCameraFromTransform c1ProjInv c1ViewInv nLR0 pLR0 nBT0
          pBT0 p10 p20).2.imageRegion.w ≤ 1 := by
  refine ⟨c1_inverses.1, c1_inverses.2.1, c1_inverses.2.2.1,
    c1_inverses.2.2.2, ?_⟩
  intro nLR0 pLR0 nBT0 pBT0 p10 p20
  rw [c1_fromTransform_eval]
  have hfov : 0 < Real.arctan (28/25) := by
    have h := Real.arctan_strictMono (show (0:ℝ) < 28/25 by norm_num)
    rwa [Real.arctan_zero] at h
  refine ⟨by norm_num, by norm_num, by norm_num, by show (0:ℝ) < 2 * Real.arctan (28/25); linarith,
    by norm_num, by norm_num, by norm_num, by norm_num, by norm_num,
    by norm_num, by norm_num, by norm_num, by norm_num⟩
end
